import Mathlib

/-!
# PSX common header (`template/include/common.h`)

A shallow embedding of the integer typedefs and the utility macros of the
header, and the properties of them that the specification states.

Conventions of the embedding.

* A value of a signed 32-bit type (`s32`, `int`) is an `Int` in the range
  `S32_MIN .. S32_MAX`; a value of an unsigned 32-bit type (`u32`) is a `Nat`
  below `2 ^ 32`.
* Signed arithmetic that leaves the range wraps modulo `2 ^ 32` (two's
  complement, as the R3000's `subu`/`addiu`/`sll` do): `wrapS32`.
* A shift whose count is negative or not below the width of `int` has no
  defined result in C (the hardware uses the low five bits of the count, a
  constant folder shifts the bit out): the shift operators return `none`
  there, and a macro that still yields a value at such a count (`BITS`) takes
  what the build does with it as a parameter.
* The macros are type generic; each definition says at which operand types the
  macro is taken.
-/

namespace PSX

/-! ## Machine integers -/

/-- Least value of `s32` (`signed int`, 32-bit two's complement). -/
def S32_MIN : Int := -2147483648

/-- Greatest value of `s32`. -/
def S32_MAX : Int := 2147483647

/-- Membership in the range of `s32`. -/
def isS32 (x : Int) : Prop := S32_MIN ≤ x ∧ x ≤ S32_MAX

instance (x : Int) : Decidable (isS32 x) := by
  unfold isS32; infer_instance

/-- Membership in the range of `u32`. -/
def isU32 (x : Nat) : Prop := x < 4294967296

instance (x : Nat) : Decidable (isU32 x) := by
  unfold isU32; infer_instance

/-- Reduction of a mathematical integer to the `s32` with the same low 32 bits. -/
def wrapS32 (x : Int) : Int := (x + 2147483648) % 4294967296 - 2147483648

/-- The conversion `(u32)x`: the low 32 bits of `x` read as unsigned. -/
def toU32 (x : Int) : Nat := (x % 4294967296).toNat

/-- The conversion `(u16)x` of an unsigned value: its low 16 bits. -/
def toU16 (x : Nat) : Nat := x % 65536

/-! ## Utility macros: comparison (lines 96-101) -/

/-- Macro `MIN(a, b)`: `((a) < (b) ? (a) : (b))`, at operands of type `s32`. -/
def MIN (a b : Int) : Int := if a < b then a else b

/-- Macro `MAX(a, b)`: `((a) > (b) ? (a) : (b))`, at operands of type `s32`. -/
def MAX (a b : Int) : Int := if a > b then a else b

/-- Macro `CLAMP(val, min, max)`: `MIN(MAX(val, min), max)`. -/
def CLAMP (val min max : Int) : Int := MIN (MAX val min) max

/-- Macro `ABS(x)`: `((x) < 0 ? -(x) : (x))`, at an operand of type `s32`; the
negation is the 32-bit one. -/
def ABS (x : Int) : Int := if x < 0 then wrapS32 (-x) else x

/-- Macro `SIGN(x)`: `((x) > 0 ? 1 : ((x) < 0 ? -1 : 0))`. -/
def SIGN (x : Int) : Int := if x > 0 then 1 else (if x < 0 then -1 else 0)

/-! ## Utility macros: bit manipulation (lines 104-105) -/

/-- The operator `a << n` on `int`: the low 32 bits of `a * 2 ^ n`, read as
signed; no result for a count outside `0 .. 31`. -/
def shl32 (a n : Int) : Option Int :=
  if 0 ≤ n ∧ n < 32 then some (wrapS32 (a * 2 ^ n.toNat)) else none

/-- The operator `a >> n` on a signed `int`: the arithmetic shift (the sign is
copied in); no result for a count outside `0 .. 31`. -/
def sar32 (a n : Int) : Option Int :=
  if 0 ≤ n ∧ n < 32 then some (a >>> n.toNat) else none

/-- The operator `a >> n` on an `unsigned int`: the logical shift; no result
for a count outside `0 .. 31`. -/
def shr32 (a : Nat) (n : Int) : Option Nat :=
  if 0 ≤ n ∧ n < 32 then some (a >>> n.toNat) else none

/-- The operator `a - b` on `int`. -/
def sub32 (a b : Int) : Int := wrapS32 (a - b)

/-- The operator `a & b` on `int`: bitwise on the two's complement patterns. -/
def and32 (a b : Int) : Int := wrapS32 ((toU32 a &&& toU32 b : Nat) : Int)

/-- Macro `BIT(n)`: `(1 << (n))`; the literal `1` has type `int`. -/
def BIT (n : Int) : Option Int := shl32 1 n

/-- What a build yields for a shift whose count lies outside `0 .. 31`, one
function for each of `<<` on `int`, `>>` on `int` and `>>` on `unsigned int`.
C leaves these results open and builds differ, so they are a parameter. -/
structure Oversize where
  shl : Int → Int → Int
  sar : Int → Int → Int
  shr : Nat → Int → Nat

/-- The shifts of the R3000 at run time (`sllv`, `srav`, `srlv`): the count is
the low five bits of the count register. -/
def r3000_shifts : Oversize :=
  { shl := fun a n => a * 2 ^ (n % 32).toNat,
    sar := fun a n => a >>> (n % 32).toNat,
    shr := fun a n => a >>> (n % 32).toNat }

/-- The value of `a << n` on `int` under a build: `shl32` where C defines it,
the build's 32-bit result elsewhere. -/
def shl32_on (ov : Oversize) (a n : Int) : Int :=
  match shl32 a n with
  | some v => v
  | none => wrapS32 (ov.shl a n)

/-- The value of `a >> n` on a signed `int` under a build. -/
def sar32_on (ov : Oversize) (a n : Int) : Int :=
  match sar32 a n with
  | some v => v
  | none => wrapS32 (ov.sar a n)

/-- The value of `a >> n` on an `unsigned int` under a build. -/
def shr32_on (ov : Oversize) (a : Nat) (n : Int) : Nat :=
  match shr32 a n with
  | some v => v
  | none => ov.shr a n % 4294967296

/-- Macro `BITS(x, start, len)`: `(((x) >> (start)) & ((1 << (len)) - 1))`, at
an operand `x` of type `s32`; the result has type `int`. -/
def BITS (ov : Oversize) (x start len : Int) : Int :=
  and32 (sar32_on ov x start) (sub32 (shl32_on ov 1 len) 1)

/-- Macro `BITS(x, start, len)` at an operand `x` of type `u32`: the shift is
the logical one and the `int` mask is converted to `unsigned int`; the result
has type `u32`. -/
def BITS_u32 (ov : Oversize) (x : Nat) (start len : Int) : Nat :=
  shr32_on ov x start &&& toU32 (sub32 (shl32_on ov 1 len) 1)

/-! ## Utility macros: address manipulation (lines 108-109) -/

/-- Macro `LO16(addr)`: `((u16)((u32)(addr) & 0xFFFF))`. -/
def LO16 (addr : Int) : Nat := toU16 (toU32 addr &&& 0xFFFF)

/-- Macro `HI16(addr)`: `((u16)(((u32)(addr) >> 16) & 0xFFFF))`. -/
def HI16 (addr : Int) : Nat := toU16 ((toU32 addr >>> 16) &&& 0xFFFF)

/-! ## Utility macros: element count (line 94) -/

/-- An array object as `sizeof` sees it: the number of its elements and the
size in bytes of its element type. -/
structure CArray where
  count : Nat
  elem_size : Nat
  deriving Repr, DecidableEq

/-- The value of `sizeof(arr)`, a `size_t` of 32 bits: elements times size. -/
def CArray.sizeof_arr (arr : CArray) : Nat := (arr.count * arr.elem_size) % 4294967296

/-- The value of `sizeof((arr)[0])`, a `size_t` of 32 bits. -/
def CArray.sizeof_elem (arr : CArray) : Nat := arr.elem_size % 4294967296

/-- Macro `ARRAY_COUNT(arr)`: `(sizeof(arr) / sizeof((arr)[0]))`. -/
def ARRAY_COUNT (arr : CArray) : Nat := arr.sizeof_arr / arr.sizeof_elem

/-! ## Integer typedefs (lines 16-24, 30, 44-45) -/

/-- The native integer types of C that the header names. -/
inductive CType where
  | signed_char
  | signed_short
  | signed_int
  | signed_long_long
  | unsigned_char
  | unsigned_short
  | unsigned_int
  | unsigned_long_long
  deriving Repr, DecidableEq

/-- Typedef `typedef signed char s8;`. -/
def s8 : CType := CType.signed_char

/-- Typedef `typedef signed short s16;`. -/
def s16 : CType := CType.signed_short

/-- Typedef `typedef signed int s32;`. -/
def s32 : CType := CType.signed_int

/-- Typedef `typedef signed long long s64;`. -/
def s64 : CType := CType.signed_long_long

/-- Typedef `typedef unsigned char u8;`. -/
def u8 : CType := CType.unsigned_char

/-- Typedef `typedef unsigned short u16;`. -/
def u16 : CType := CType.unsigned_short

/-- Typedef `typedef unsigned int u32;`. -/
def u32 : CType := CType.unsigned_int

/-- Typedef `typedef unsigned long long u64;`. -/
def u64 : CType := CType.unsigned_long_long

/-- Typedef `typedef s32 bool;`. -/
def bool : CType := s32

/-- Typedef `typedef s16 fixed16;`. -/
def fixed16 : CType := s16

/-- Typedef `typedef s32 fixed32;`. -/
def fixed32 : CType := s32

/-- A platform's data model: the widths in bits that its compiler gives to the
native integer types. The header does not fix them; they are a parameter. -/
structure DataModel where
  char_bits : Nat
  short_bits : Nat
  int_bits : Nat
  long_long_bits : Nat
  deriving Repr, DecidableEq

/-- The data models that C admits: `char` has at least 8 bits, `short` and
`int` at least 16, `long long` at least 64, the widths do not decrease along
`char`, `short`, `int`, `long long`, and each is a whole number of bytes. -/
def DataModel.admissible (m : DataModel) : Prop :=
  8 ≤ m.char_bits ∧ 16 ≤ m.short_bits ∧ 16 ≤ m.int_bits ∧ 64 ≤ m.long_long_bits ∧
    m.char_bits ≤ m.short_bits ∧ m.short_bits ≤ m.int_bits ∧
    m.int_bits ≤ m.long_long_bits ∧
    m.short_bits % m.char_bits = 0 ∧ m.int_bits % m.char_bits = 0 ∧
    m.long_long_bits % m.char_bits = 0

instance (m : DataModel) : Decidable m.admissible := by
  unfold DataModel.admissible; infer_instance

/-- Width in bits of a native integer type under a data model; a signed type
and its unsigned counterpart have the same width. -/
def DataModel.bits (m : DataModel) : CType → Nat
  | CType.signed_char => m.char_bits
  | CType.unsigned_char => m.char_bits
  | CType.signed_short => m.short_bits
  | CType.unsigned_short => m.short_bits
  | CType.signed_int => m.int_bits
  | CType.unsigned_int => m.int_bits
  | CType.signed_long_long => m.long_long_bits
  | CType.unsigned_long_long => m.long_long_bits

/-- The value of `sizeof(t)`: the width of `t` counted in bytes, a byte being
one `char`. -/
def DataModel.sizeof (m : DataModel) (t : CType) : Nat := m.bits t / m.char_bits

/-- The data model of the PSX toolchain (MIPS R3000, 32-bit `int`). -/
def psx_model : DataModel :=
  { char_bits := 8, short_bits := 16, int_bits := 32, long_long_bits := 64 }

/-- A data model with a 16-bit `int`, as compilers for 16-bit machines have. -/
def int16_model : DataModel :=
  { char_bits := 8, short_bits := 16, int_bits := 16, long_long_bits := 64 }

/-! ## Operand types and companion expressions of the later properties -/

/-- The operator `a * b` on `int`. -/
def mul32 (a b : Int) : Int := wrapS32 (a * b)

/-- Macro `MIN(a, b)`: `((a) < (b) ? (a) : (b))`, at `a` of type `s32` and `b`
of type `u32`. The usual arithmetic conversions turn `a` into `unsigned int`,
in the comparison and in the result of the conditional alike; the result has
type `u32`. -/
def MIN_s32_u32 (a : Int) (b : Nat) : Nat := if toU32 a < b then toU32 a else b

/-- Reference for `CLAMP`, in the words of the specification: saturation, `lo`
when `v < lo`, `hi` when `v > hi`, and `v` itself otherwise. It is not taken
from the header; `CLAMP` is compared with it. -/
def CLAMP_saturating (v lo hi : Int) : Int :=
  if v < lo then lo else if v > hi then hi else v

/-- The recombining expression `((u32)hi << 16) | (u32)lo` of the
specification, on `unsigned int`: the shift keeps the low 32 bits. It is not
taken from the header; the halves of an address are put through it. -/
def join_halves (hi lo : Nat) : Nat :=
  (((hi % 4294967296) <<< 16) % 4294967296) ||| (lo % 4294967296)

/-! ## Properties -/

/-- C1: for `lo <= hi`, `CLAMP(v, lo, hi)` lies between `lo` and `hi`. -/
theorem clamp_within_bounds (v lo hi : Int) (h : lo ≤ hi) :
    lo ≤ CLAMP v lo hi ∧ CLAMP v lo hi ≤ hi := by
  unfold CLAMP MIN MAX
  split_ifs <;> constructor <;> omega

/-- A concrete instance: `v = 9` above the interval `lo = -3`, `hi = 4`. -/
theorem clamp_within_bounds_witness :
    (-3 : Int) ≤ 4 ∧ (-3 ≤ CLAMP 9 (-3) 4 ∧ CLAMP 9 (-3) 4 ≤ 4) :=
  ⟨by decide, clamp_within_bounds 9 (-3) 4 (by decide)⟩

/-- C2 as stated fails: with reversed bounds `lo = 10 > hi = 0` the macro
yields `0`, which is `hi`, and not `lo`. -/
theorem clamp_reversed_not_lo :
    isS32 5 ∧ isS32 10 ∧ isS32 0 ∧ (10 : Int) > 0 ∧ CLAMP 5 10 0 = 0 ∧ CLAMP 5 10 0 ≠ 10 := by
  decide

/-- C2 (amended): with reversed bounds `lo > hi`, `CLAMP(v, lo, hi)` returns
`hi`, whatever `v` is. -/
theorem clamp_reversed_returns_hi (v lo hi : Int) (h : lo > hi) :
    CLAMP v lo hi = hi := by
  unfold CLAMP MIN MAX
  split_ifs <;> omega

/-- A concrete instance: `v = 5` with the reversed bounds `lo = 10`, `hi = 0`. -/
theorem clamp_reversed_returns_hi_witness :
    (10 : Int) > 0 ∧ CLAMP 5 10 0 = 0 :=
  ⟨by decide, clamp_reversed_returns_hi 5 10 0 (by decide)⟩

/-- C3: `MIN(a, b)` is the smaller and `MAX(a, b)` the larger of `a` and `b`,
so `MIN(a, b) <= MAX(a, b)`; at `a = b` both are that value. -/
theorem min_max_spec (a b : Int) :
    MIN a b = min a b ∧ MAX a b = max a b ∧ MIN a b ≤ MAX a b ∧
      (a = b → MIN a b = a ∧ MAX a b = a) := by
  unfold MIN MAX
  refine ⟨?_, ?_, ?_, ?_⟩
  · split_ifs <;> omega
  · split_ifs <;> omega
  · split_ifs <;> omega
  · intro h
    subst h
    simp

/-- C4: away from the most negative value, `ABS(x)` of an `s32` is the
mathematical absolute value, non-negative and again an `s32`. -/
theorem abs_spec (x : Int) (hx : isS32 x) (hmin : x ≠ S32_MIN) :
    ABS x = |x| ∧ 0 ≤ ABS x ∧ isS32 (ABS x) := by
  unfold isS32 S32_MIN S32_MAX at *
  unfold ABS wrapS32
  obtain ⟨h1, h2⟩ := hx
  by_cases hneg : x < 0
  · rw [if_pos hneg, abs_of_neg hneg]
    omega
  · rw [if_neg hneg, abs_of_nonneg (by omega)]
    omega

/-- A concrete instance: `x = -2147483647`, the least admitted operand. -/
theorem abs_spec_witness :
    isS32 (-2147483647) ∧ (-2147483647 : Int) ≠ S32_MIN ∧
      (ABS (-2147483647) = |(-2147483647 : Int)| ∧ 0 ≤ ABS (-2147483647) ∧
        isS32 (ABS (-2147483647))) :=
  ⟨by decide, by decide, abs_spec (-2147483647) (by decide) (by decide)⟩

/-- C5: `SIGN(x)` is one of `-1`, `0`, `1` and tells the sign of `x`. -/
theorem sign_spec (x : Int) :
    (SIGN x = -1 ∨ SIGN x = 0 ∨ SIGN x = 1) ∧
      (SIGN x = 1 ↔ x > 0) ∧ (SIGN x = -1 ↔ x < 0) ∧ (SIGN x = 0 ↔ x = 0) := by
  unfold SIGN
  rcases lt_trichotomy x 0 with h | h | h
  · have h1 : ¬ x > 0 := by omega
    rw [if_neg h1, if_pos h]
    omega
  · subst h
    decide
  · rw [if_pos h]
    omega

/-! ### Auxiliary facts on 32-bit patterns -/

/-- The pattern of `y` as an integer: `y` modulo `2 ^ 32`. -/
theorem toU32_cast (y : Int) : ((toU32 y : Nat) : Int) = y % 4294967296 := by
  unfold toU32; omega

/-- The word modulus factors along a field of `l` bits at position `s`. -/
theorem word_factor (s l : Nat) (h : s + l ≤ 32) :
    (4294967296 : Int) = 2 ^ s * (2 ^ l * 2 ^ (32 - s - l)) := by
  rw [← pow_add, ← pow_add]
  have hsum : s + (l + (32 - s - l)) = 32 := by omega
  rw [hsum]; norm_num

/-- The low `l` bits of the arithmetic shift of `x` by `s` are the bits
`s .. s+l-1` of the pattern of `x`, as long as the field ends inside the word. -/
theorem field_of_shift (x : Int) (s l : Nat) (h : s + l ≤ 32) :
    toU32 (x / 2 ^ s) % 2 ^ l = toU32 x / 2 ^ s % 2 ^ l := by
  have key : (x / 2 ^ s) % 4294967296 % 2 ^ l = (x % 4294967296) / 2 ^ s % 2 ^ l := by
    have hs : (2 : Int) ^ s ≠ 0 := by positivity
    have hd : ((2 : Int) ^ l) ∣ 4294967296 :=
      ⟨2 ^ s * 2 ^ (32 - s - l), by rw [word_factor s l h]; ring⟩
    rw [Int.emod_emod_of_dvd _ hd]
    have e : x = x % 4294967296 + 2 ^ s * (2 ^ l * (2 ^ (32 - s - l) * (x / 4294967296))) := by
      have h1 := Int.emod_add_ediv x 4294967296
      have h2 : 2 ^ s * (2 ^ l * (2 ^ (32 - s - l) * (x / 4294967296)))
          = 4294967296 * (x / 4294967296) := by
        rw [word_factor s l h]; ring
      omega
    conv_lhs => rw [e]
    rw [Int.add_mul_ediv_left _ _ hs, Int.add_mul_emod_self_left]
  apply Int.ofNat_inj.mp
  push_cast
  rw [toU32_cast, toU32_cast]
  exact key

/-- For `l <= 31` the mask `(1 << l) - 1` has the pattern `2 ^ l - 1`. -/
theorem mask_pattern (l : Nat) (h : l ≤ 31) :
    toU32 (sub32 (wrapS32 (1 * 2 ^ l)) 1) = 2 ^ l - 1 := by
  have hpos : 1 ≤ 2 ^ l := Nat.one_le_two_pow
  have hle : 2 ^ l ≤ 2 ^ 31 := Nat.pow_le_pow_right (by norm_num) h
  have hcast : (1 * 2 ^ l : Int) = ((2 ^ l : Nat) : Int) := by push_cast; ring
  rw [hcast]
  generalize 2 ^ l = p at *
  unfold sub32 wrapS32 toU32
  omega

/-! ### Bit manipulation -/

/-- Under every build the mask `(1 << len) - 1` of a length `0 <= len <= 31`
has the pattern `2 ^ len - 1`. -/
theorem mask_on_build (ov : Oversize) (len : Int) (hl0 : 0 ≤ len) (hl31 : len ≤ 31) :
    toU32 (sub32 (shl32_on ov 1 len) 1) = 2 ^ len.toNat - 1 := by
  have hl : 0 ≤ len ∧ len < 32 := ⟨hl0, by omega⟩
  unfold shl32_on shl32
  rw [if_pos hl]
  exact mask_pattern len.toNat (by omega)

/-- A value below `2 ^ 31` is its own reduction to `s32`. -/
theorem wrapS32_of_field (r l : Nat) (hr : r < 2 ^ l) (hl : l ≤ 31) :
    wrapS32 (r : Int) = r := by
  have hle : 2 ^ l ≤ 2 ^ 31 := Nat.pow_le_pow_right (by norm_num) hl
  unfold wrapS32
  omega

/-- C6 as stated fails: a field of all 32 bits (`start = 0`, `len = 32`) asks
for `1 << 32`, a shift by the full width of `int`. At run time the R3000
shifts by the low five bits of the count, that is by 0, so the mask is
`1 - 1 = 0` and the macro yields `0` where the field is `0xFFFFFFFF`. -/
theorem bits_full_width_fails :
    isS32 (-1) ∧ (0 : Int) ≤ 0 ∧ (0 : Int) ≤ 32 ∧ (0 : Int) + 32 ≤ 32 ∧
      BITS r3000_shifts (-1) 0 32 = 0 ∧
      BITS r3000_shifts (-1) 0 32 ≠ ((toU32 (-1) / 2 ^ 0 % 2 ^ 32 : Nat) : Int) ∧
      BITS_u32 r3000_shifts 4294967295 0 32 = 0 ∧
      BITS_u32 r3000_shifts 4294967295 0 32 ≠ 4294967295 / 2 ^ 0 % 2 ^ 32 := by
  decide

/-- C6 (amended): for `0 <= start` and `0 <= len <= 31` with
`start + len <= 32`, on every build, `BITS(x, start, len)` is the unsigned
value of the field of `len` bits of `x` at bit `start`, whether `x` is signed
or unsigned (the empty field at `start = 32` included); and
`BITS(0b10110100, 2, 3) = 5`. -/
theorem bits_spec (ov : Oversize) (x start len : Int) (hx : isS32 x)
    (hs0 : 0 ≤ start) (hl0 : 0 ≤ len) (hl31 : len ≤ 31) (hfit : start + len ≤ 32) :
    BITS ov x start len = ((toU32 x / 2 ^ start.toNat % 2 ^ len.toNat : Nat) : Int) ∧
      BITS_u32 ov (toU32 x) start len = toU32 x / 2 ^ start.toNat % 2 ^ len.toNat ∧
      BITS ov 180 2 3 = 5 := by
  have _hx := hx
  have signed : ∀ y s l : Int, 0 ≤ s → 0 ≤ l → l ≤ 31 → s + l ≤ 32 →
      BITS ov y s l = ((toU32 y / 2 ^ s.toNat % 2 ^ l.toNat : Nat) : Int) := by
    intro y s l h0 k0 k31 hsum
    have hmask := mask_on_build ov l k0 k31
    unfold BITS and32
    rw [hmask, Nat.and_pow_two_sub_one_eq_mod]
    have hfield : toU32 (sar32_on ov y s) % 2 ^ l.toNat
        = toU32 y / 2 ^ s.toNat % 2 ^ l.toNat := by
      by_cases hs : s ≤ 31
      · have hin : 0 ≤ s ∧ s < 32 := ⟨h0, by omega⟩
        have hsh : y >>> s.toNat = y / 2 ^ s.toNat := by
          rw [Int.shiftRight_eq_div_pow]; push_cast; rfl
        unfold sar32_on sar32
        rw [if_pos hin]
        simp only [hsh]
        exact field_of_shift y _ _ (by omega)
      · have hzero : l.toNat = 0 := by omega
        rw [hzero, pow_zero, Nat.mod_one, Nat.mod_one]
    rw [hfield]
    exact wrapS32_of_field _ l.toNat (Nat.mod_lt _ (by positivity)) (by omega)
  refine ⟨signed x start len hs0 hl0 hl31 hfit, ?_, ?_⟩
  · have hmask := mask_on_build ov len hl0 hl31
    unfold BITS_u32
    rw [hmask, Nat.and_pow_two_sub_one_eq_mod]
    by_cases hs : start ≤ 31
    · have hin : 0 ≤ start ∧ start < 32 := ⟨hs0, by omega⟩
      unfold shr32_on shr32
      rw [if_pos hin]
      simp only [Nat.shiftRight_eq_div_pow]
    · have hzero : len.toNat = 0 := by omega
      rw [hzero, pow_zero, Nat.mod_one, Nat.mod_one]
  · rw [signed 180 2 3 (by decide) (by decide) (by decide) (by decide)]
    decide

/-- A concrete instance: the negative word `x = -76` (`0xFFFFFFB4`) with
`start = 2`, `len = 30`, a field that reaches the top bit, on the R3000. -/
theorem bits_spec_witness :
    isS32 (-76) ∧ (0 : Int) ≤ 2 ∧ (0 : Int) ≤ 30 ∧ (30 : Int) ≤ 31 ∧
      (2 : Int) + 30 ≤ 32 ∧
      (BITS r3000_shifts (-76) 2 30
          = ((toU32 (-76) / 2 ^ (2 : Int).toNat % 2 ^ (30 : Int).toNat : Nat) : Int) ∧
        BITS_u32 r3000_shifts (toU32 (-76)) 2 30
          = toU32 (-76) / 2 ^ (2 : Int).toNat % 2 ^ (30 : Int).toNat ∧
        BITS r3000_shifts 180 2 3 = 5) :=
  ⟨by decide, by decide, by decide, by decide, by decide,
    bits_spec r3000_shifts (-76) 2 30 (by decide) (by decide) (by decide) (by decide)
      (by decide)⟩

/-- C7 as stated fails: at `n = 31` the `int` shift `1 << 31` lands on the sign
bit, so `BIT(31)` is `-2147483648` and not `2 ^ 31`. -/
theorem bit_31_is_sign_bit :
    (0 : Int) ≤ 31 ∧ (31 : Int) ≤ 31 ∧ BIT 31 = some (-2147483648) ∧
      BIT 31 ≠ some (2 ^ 31) := by
  decide

/-- C7 (amended): for `0 <= n <= 30`, `BIT(n)` is `2 ^ n`; `BIT(31)` is the
most negative `int`; and for every `0 <= n <= 31` the 32-bit pattern of
`BIT(n)` is `2 ^ n`. -/
theorem bit_spec (n : Int) (h0 : 0 ≤ n) (h31 : n ≤ 31) :
    (n ≤ 30 → BIT n = some (2 ^ n.toNat)) ∧ (n = 31 → BIT n = some S32_MIN) ∧
      (∃ v, BIT n = some v ∧ isS32 v ∧ toU32 v = 2 ^ n.toNat) := by
  interval_cases n <;> decide

/-- A concrete instance: `n = 30`, the last count that stays positive. -/
theorem bit_spec_witness :
    (0 : Int) ≤ 30 ∧ (30 : Int) ≤ 31 ∧
      ((30 : Int) ≤ 30 → BIT 30 = some (2 ^ (30 : Int).toNat)) ∧
      ((30 : Int) = 31 → BIT 30 = some S32_MIN) ∧
      (∃ v, BIT 30 = some v ∧ isS32 v ∧ toU32 v = 2 ^ (30 : Int).toNat) :=
  ⟨by decide, by decide, bit_spec 30 (by decide) (by decide)⟩

/-! ### Address manipulation -/

/-- C8: for a `u32` address `a`, `LO16(a)` is `a mod 2 ^ 16` and `HI16(a)` is
`a / 2 ^ 16`, both below `65536`; `LO16(0x1234ABCD) = 0xABCD` and
`HI16(0x1234ABCD) = 0x1234`. -/
theorem lo16_hi16_spec (a : Nat) (ha : isU32 a) :
    LO16 (a : Int) = a % 65536 ∧ HI16 (a : Int) = a / 65536 ∧
      LO16 (a : Int) < 65536 ∧ HI16 (a : Int) < 65536 ∧
      LO16 0x1234ABCD = 0xABCD ∧ HI16 0x1234ABCD = 0x1234 := by
  unfold isU32 at ha
  have hu : toU32 (a : Int) = a := by unfold toU32; omega
  have hmask : (0xFFFF : Nat) = 2 ^ 16 - 1 := by norm_num
  have hlo : LO16 (a : Int) = a % 65536 := by
    unfold LO16 toU16
    rw [hu, hmask, Nat.and_pow_two_sub_one_eq_mod]
    omega
  have hhi : HI16 (a : Int) = a / 65536 := by
    unfold HI16 toU16
    rw [hu, hmask, Nat.and_pow_two_sub_one_eq_mod, Nat.shiftRight_eq_div_pow]
    omega
  refine ⟨hlo, hhi, ?_, ?_, by decide, by decide⟩
  · rw [hlo]; omega
  · rw [hhi]; omega

/-- A concrete instance: the greatest address `0xFFFFFFFF`. -/
theorem lo16_hi16_spec_witness :
    isU32 4294967295 ∧
      (LO16 ((4294967295 : Nat) : Int) = 4294967295 % 65536 ∧
        HI16 ((4294967295 : Nat) : Int) = 4294967295 / 65536 ∧
        LO16 ((4294967295 : Nat) : Int) < 65536 ∧ HI16 ((4294967295 : Nat) : Int) < 65536 ∧
        LO16 0x1234ABCD = 0xABCD ∧ HI16 0x1234ABCD = 0x1234) :=
  ⟨by decide, lo16_hi16_spec 4294967295 (by decide)⟩

/-! ### Element count -/

/-- C9: for an array of `n` elements of `s >= 1` bytes each, with `n * s`
inside `size_t`, `ARRAY_COUNT` is `n`; for `n = 7` it is `7`. -/
theorem array_count_spec (n s : Nat) (hs : 1 ≤ s) (hfit : n * s < 4294967296) :
    ARRAY_COUNT { count := n, elem_size := s } = n ∧
      (7 * s < 4294967296 → ARRAY_COUNT { count := 7, elem_size := s } = 7) := by
  have count_eq : ∀ k : Nat, k * s < 4294967296 →
      ARRAY_COUNT { count := k, elem_size := s } = k := by
    intro k hk
    unfold ARRAY_COUNT CArray.sizeof_arr CArray.sizeof_elem
    simp only
    rw [Nat.mod_eq_of_lt hk]
    rcases Nat.eq_zero_or_pos k with h0 | hpos
    · subst h0; simp
    · have hsk : s ≤ k * s := Nat.le_mul_of_pos_left s hpos
      rw [Nat.mod_eq_of_lt (by omega)]
      exact Nat.mul_div_cancel k (by omega)
  exact ⟨count_eq n hfit, count_eq 7⟩

/-- A concrete instance: seven elements of four bytes each. -/
theorem array_count_spec_witness :
    1 ≤ 4 ∧ 7 * 4 < 4294967296 ∧
      (ARRAY_COUNT { count := 7, elem_size := 4 } = 7 ∧
        (7 * 4 < 4294967296 → ARRAY_COUNT { count := 7, elem_size := 4 } = 7)) :=
  ⟨by decide, by decide, array_count_spec 7 4 (by decide) (by decide)⟩

/-! ### Integer typedefs -/

/-- C10 as stated fails: the aliases are typedefs of native types, so on an
admissible data model with a 16-bit `int` the alias `s32` (with `u32` and
`bool`) has 16 bits, not 32. -/
theorem s32_width_follows_int :
    int16_model.admissible ∧ int16_model.bits s32 = 16 ∧ int16_model.bits s32 ≠ 32 ∧
      int16_model.bits u32 ≠ 32 := by
  decide

/-- C10 (amended): under every data model each alias has the width of the
native type it is a typedef of, and `bool` has the width of `s32`; under a data
model with 8-bit `char`, 16-bit `short`, 32-bit `int` and 64-bit `long long`
(the PSX one) the aliases have the documented widths 8, 16, 32 and 64 bits,
and `sizeof(s64)` is 8. -/
theorem typedef_widths (m : DataModel) :
    (m.bits s8 = m.char_bits ∧ m.bits u8 = m.char_bits ∧
      m.bits s16 = m.short_bits ∧ m.bits u16 = m.short_bits ∧
      m.bits s32 = m.int_bits ∧ m.bits u32 = m.int_bits ∧
      m.bits s64 = m.long_long_bits ∧ m.bits u64 = m.long_long_bits ∧
      m.bits bool = m.bits s32) ∧
    (m.char_bits = 8 → m.short_bits = 16 → m.int_bits = 32 → m.long_long_bits = 64 →
      m.bits s8 = 8 ∧ m.bits u8 = 8 ∧ m.bits s16 = 16 ∧ m.bits u16 = 16 ∧
      m.bits s32 = 32 ∧ m.bits u32 = 32 ∧ m.bits s64 = 64 ∧ m.bits u64 = 64 ∧
      m.sizeof s64 = 8 ∧ m.sizeof u64 = 8 ∧ m.bits bool = m.bits s32) := by
  refine ⟨⟨rfl, rfl, rfl, rfl, rfl, rfl, rfl, rfl, rfl⟩, ?_⟩
  intro hc hs hi hl
  have e8 : m.bits s8 = m.char_bits := rfl
  have e8u : m.bits u8 = m.char_bits := rfl
  have e16 : m.bits s16 = m.short_bits := rfl
  have e16u : m.bits u16 = m.short_bits := rfl
  have e32 : m.bits s32 = m.int_bits := rfl
  have e32u : m.bits u32 = m.int_bits := rfl
  have e64 : m.bits s64 = m.long_long_bits := rfl
  have e64u : m.bits u64 = m.long_long_bits := rfl
  refine ⟨by omega, by omega, by omega, by omega, by omega, by omega, by omega, by omega,
    ?_, ?_, rfl⟩
  · unfold DataModel.sizeof; rw [e64, hl, hc]
  · unfold DataModel.sizeof; rw [e64u, hl, hc]

/-- A concrete instance: the data model of the PSX. -/
theorem typedef_widths_witness :
    psx_model.char_bits = 8 ∧ psx_model.short_bits = 16 ∧ psx_model.int_bits = 32 ∧
      psx_model.long_long_bits = 64 ∧
      (psx_model.bits s8 = 8 ∧ psx_model.bits u8 = 8 ∧ psx_model.bits s16 = 16 ∧
        psx_model.bits u16 = 16 ∧ psx_model.bits s32 = 32 ∧ psx_model.bits u32 = 32 ∧
        psx_model.bits s64 = 64 ∧ psx_model.bits u64 = 64 ∧ psx_model.sizeof s64 = 8 ∧
        psx_model.sizeof u64 = 8 ∧ psx_model.bits bool = psx_model.bits s32) :=
  ⟨rfl, rfl, rfl, rfl, (typedef_widths psx_model).2 rfl rfl rfl rfl⟩

/-! ### Saturation -/

/-- C11: for `lo <= hi`, `CLAMP(v, lo, hi)` is the saturating reference: `lo`
below the interval, `hi` above it, and `v` unchanged inside it. -/
theorem clamp_eq_saturating (v lo hi : Int) (h : lo ≤ hi) :
    CLAMP v lo hi = CLAMP_saturating v lo hi ∧
      (v < lo → CLAMP v lo hi = lo) ∧ (v > hi → CLAMP v lo hi = hi) ∧
      (lo ≤ v ∧ v ≤ hi → CLAMP v lo hi = v) := by
  unfold CLAMP CLAMP_saturating MIN MAX
  refine ⟨?_, ?_, ?_, ?_⟩
  · split_ifs <;> omega
  · intro hv; split_ifs <;> omega
  · intro hv; split_ifs <;> omega
  · intro hv; split_ifs <;> omega

/-- A concrete instance: `v = 2` inside the interval `lo = -3`, `hi = 4`. -/
theorem clamp_eq_saturating_witness :
    (-3 : Int) ≤ 4 ∧
      (CLAMP 2 (-3) 4 = CLAMP_saturating 2 (-3) 4 ∧
        ((2 : Int) < -3 → CLAMP 2 (-3) 4 = -3) ∧ ((2 : Int) > 4 → CLAMP 2 (-3) 4 = 4) ∧
        ((-3 : Int) ≤ 2 ∧ (2 : Int) ≤ 4 → CLAMP 2 (-3) 4 = 2)) :=
  ⟨by decide, clamp_eq_saturating 2 (-3) 4 (by decide)⟩

/-! ### Recombining an address -/

/-- The low half of a `u32` address is its remainder by `2 ^ 16`. -/
theorem lo16_of_u32 (a : Nat) (ha : a < 4294967296) : LO16 (a : Int) = a % 65536 := by
  have hu : toU32 (a : Int) = a := by unfold toU32; omega
  have hmask : (0xFFFF : Nat) = 2 ^ 16 - 1 := by norm_num
  unfold LO16 toU16
  rw [hu, hmask, Nat.and_pow_two_sub_one_eq_mod]
  omega

/-- The high half of a `u32` address is its quotient by `2 ^ 16`. -/
theorem hi16_of_u32 (a : Nat) (ha : a < 4294967296) : HI16 (a : Int) = a / 65536 := by
  have hu : toU32 (a : Int) = a := by unfold toU32; omega
  have hmask : (0xFFFF : Nat) = 2 ^ 16 - 1 := by norm_num
  unfold HI16 toU16
  rw [hu, hmask, Nat.and_pow_two_sub_one_eq_mod, Nat.shiftRight_eq_div_pow]
  omega

/-- C12: splitting a `u32` address loses nothing: the halves put back by
`((u32)HI16(a) << 16) | (u32)LO16(a)` give `a`, and
`HI16(a) * 65536 + LO16(a) = a`. -/
theorem halves_recombine (a : Nat) (ha : isU32 a) :
    join_halves (HI16 (a : Int)) (LO16 (a : Int)) = a ∧
      HI16 (a : Int) * 65536 + LO16 (a : Int) = a := by
  unfold isU32 at ha
  rw [lo16_of_u32 a ha, hi16_of_u32 a ha]
  have hq : a / 65536 < 65536 := by omega
  have hr : a % 65536 < 2 ^ 16 := by omega
  have hsum : a / 65536 * 65536 + a % 65536 = a := by omega
  refine ⟨?_, hsum⟩
  unfold join_halves
  rw [Nat.mod_eq_of_lt (by omega : a / 65536 < 4294967296), Nat.shiftLeft_eq,
    Nat.mod_eq_of_lt (by omega : a / 65536 * 2 ^ 16 < 4294967296),
    Nat.mod_eq_of_lt (by omega : a % 65536 < 4294967296),
    Nat.mul_comm, ← Nat.mul_add_lt_is_or hr]
  omega

/-- A concrete instance: the address `0x1234ABCD`. -/
theorem halves_recombine_witness :
    isU32 0x1234ABCD ∧
      (join_halves (HI16 ((0x1234ABCD : Nat) : Int)) (LO16 ((0x1234ABCD : Nat) : Int))
          = 0x1234ABCD ∧
        HI16 ((0x1234ABCD : Nat) : Int) * 65536 + LO16 ((0x1234ABCD : Nat) : Int)
          = 0x1234ABCD) :=
  ⟨by decide, halves_recombine 0x1234ABCD (by decide)⟩

/-! ### Sign and magnitude at the edge of the range -/

/-- C13: with the 32-bit negation, `ABS` at the most negative `s32` returns
that same value, and for an `s32` operand `ABS(x) >= 0` holds exactly when `x`
is not the most negative value. -/
theorem abs_at_min (x : Int) (hx : isS32 x) :
    ABS S32_MIN = S32_MIN ∧ ABS (-2147483648) = -2147483648 ∧
      (0 ≤ ABS x ↔ x ≠ S32_MIN) := by
  refine ⟨by decide, by decide, ?_⟩
  unfold isS32 S32_MIN S32_MAX at *
  unfold ABS wrapS32
  obtain ⟨h1, h2⟩ := hx
  by_cases hneg : x < 0
  · rw [if_pos hneg]
    omega
  · rw [if_neg hneg]
    omega

/-- A concrete instance: the most negative operand itself, where `ABS` is
negative. -/
theorem abs_at_min_witness :
    isS32 S32_MIN ∧
      (ABS S32_MIN = S32_MIN ∧ ABS (-2147483648) = -2147483648 ∧
        (0 ≤ ABS S32_MIN ↔ S32_MIN ≠ S32_MIN)) :=
  ⟨by decide, abs_at_min S32_MIN (by decide)⟩

/-- C14: sign and magnitude recompose an `s32`: `SIGN(x) * ABS(x) = x` in
32-bit arithmetic, the most negative value included. -/
theorem sign_mul_abs (x : Int) (hx : isS32 x) :
    mul32 (SIGN x) (ABS x) = x := by
  unfold isS32 S32_MIN S32_MAX at hx
  obtain ⟨h1, h2⟩ := hx
  unfold mul32 SIGN ABS
  rcases lt_trichotomy x 0 with h | h | h
  · have hpos : ¬ x > 0 := by omega
    rw [if_neg hpos, if_pos h, if_pos h, neg_one_mul]
    unfold wrapS32
    omega
  · subst h
    decide
  · have hneg : ¬ x < 0 := by omega
    rw [if_pos h, if_neg hneg, one_mul]
    unfold wrapS32
    omega

/-- A concrete instance: the most negative operand, where the product wraps. -/
theorem sign_mul_abs_witness :
    isS32 (-2147483648) ∧ mul32 (SIGN (-2147483648)) (ABS (-2147483648)) = -2147483648 :=
  ⟨by decide, sign_mul_abs (-2147483648) (by decide)⟩

/-! ### Mixed signedness -/

/-- C15: at `a` of type `s32` and `b` of type `u32`, `MIN(a, b)` is the
unsigned minimum of `a mod 2 ^ 32` and `b`, not the numerically smaller
operand: for `a = -1`, `b = 1` it is `1`. -/
theorem min_mixed_signedness (a : Int) (b : Nat) (ha : isS32 a) (hb : isU32 b) :
    MIN_s32_u32 a b = min (toU32 a) b ∧ ((toU32 a : Nat) : Int) = a % 4294967296 ∧
      isU32 (MIN_s32_u32 a b) ∧
      MIN_s32_u32 (-1) 1 = 1 ∧ ((MIN_s32_u32 (-1) 1 : Nat) : Int) ≠ min (-1) 1 := by
  have _ha := ha
  unfold isU32 at *
  have hcast : ((toU32 a : Nat) : Int) = a % 4294967296 := by unfold toU32; omega
  refine ⟨?_, hcast, ?_, by decide, by decide⟩
  · unfold MIN_s32_u32
    split_ifs <;> omega
  · unfold MIN_s32_u32
    split_ifs <;> omega

/-- A concrete instance: `a = -1` and `b = 1`. -/
theorem min_mixed_signedness_witness :
    isS32 (-1) ∧ isU32 1 ∧
      (MIN_s32_u32 (-1) 1 = min (toU32 (-1)) 1 ∧
        ((toU32 (-1) : Nat) : Int) = (-1) % 4294967296 ∧
        isU32 (MIN_s32_u32 (-1) 1) ∧
        MIN_s32_u32 (-1) 1 = 1 ∧ ((MIN_s32_u32 (-1) 1 : Nat) : Int) ≠ min (-1) 1) :=
  ⟨by decide, by decide, min_mixed_signedness (-1) 1 (by decide) (by decide)⟩

end PSX
